import Mathlib

/-!
Verification development for the color-statistics engine of the repository
(`src/controllers/image_controller.py`, with a duplicate revision in
`src/lib/image_color.py`).

The Python code is shallowly embedded:

* `QImageM` models the `QImage` collaborator: a width, a height and a total
  pixel function `ℤ → ℤ → ℕ` (pixel words; `QImage.pixel` at an
  out-of-bounds coordinate returns an unspecified value, which the total
  function models; `QImage.setPixel` at an out-of-bounds coordinate is a
  checked no-op, which the bounds guard in the write conditions models).
* Python `float` arithmetic is idealised as real arithmetic (`ℝ`);
  `** 0.5` becomes `Real.sqrt`, `np.cos`/`np.pi` become `Real.cos`/`Real.pi`,
  and Python 3's `round` (banker's rounding, ties to even) is `pyRound`.
* Each pixel loop of the source reads only the coordinate it writes (or
  performs no writes at all), so loops are transcribed as pointwise pixel
  functions, and the `+=` accumulation into the `numpy` buffers (which is a
  sum of independent per-tile contributions) is transcribed as a `List.sum`
  over the tile placements.
-/

/-- A region `(x1, y1, x2, y2)` with inclusive bounds, as the Python tuple. -/
structure Region where
  x1 : ℤ
  y1 : ℤ
  x2 : ℤ
  y2 : ℤ

/-- Model of the `QImage` pixel-buffer collaborator. -/
structure QImageM where
  width : ℤ
  height : ℤ
  pix : ℤ → ℤ → ℕ

/-- Python `range(a, b + 1)` (the inclusive coordinate loops of the source). -/
def intRange (a b : ℤ) : List ℤ :=
  (List.range (b + 1 - a).toNat).map fun i : ℕ => a + (i : ℤ)

/-- Python `range(a, b, s)` for a positive step `s` (the tile loops). -/
def pyRangeStep (a b s : ℤ) : List ℤ :=
  (List.range (((b - a).toNat + s.toNat - 1) / s.toNat)).map fun i : ℕ => a + s * (i : ℤ)

/-- The coordinates visited by `for y in range(y1, y2 + 1): for x in range(x1, x2 + 1)`. -/
def regionCoords (reg : Region) : List (ℤ × ℤ) :=
  (intRange reg.y1 reg.y2).flatMap fun y => (intRange reg.x1 reg.x2).map fun x => (x, y)

/-- Membership in the inclusive region rectangle. -/
def inRegionP (reg : Region) (x y : ℤ) : Prop :=
  reg.x1 ≤ x ∧ x ≤ reg.x2 ∧ reg.y1 ≤ y ∧ y ≤ reg.y2

instance (reg : Region) (x y : ℤ) : Decidable (inRegionP reg x y) :=
  inferInstanceAs (Decidable (reg.x1 ≤ x ∧ x ≤ reg.x2 ∧ reg.y1 ≤ y ∧ y ≤ reg.y2))

/-- Negation of the skip guard `x < 0 or y < 0 or x >= image.width() or y >= image.height()`
(image_controller.py line 53, 148). -/
def inBoundsP (img : QImageM) (x y : ℤ) : Prop :=
  0 ≤ x ∧ 0 ≤ y ∧ x < img.width ∧ y < img.height

instance (img : QImageM) (x y : ℤ) : Decidable (inBoundsP img x y) :=
  inferInstanceAs (Decidable (0 ≤ x ∧ 0 ≤ y ∧ x < img.width ∧ y < img.height))

/-- Red channel: `(pixel >> 16) & 0xFF` (image_controller.py line 57). -/
def getR (p : ℕ) : ℕ := (p >>> 16) &&& 255

/-- Green channel: `(pixel >> 8) & 0xFF` (line 58). -/
def getG (p : ℕ) : ℕ := (p >>> 8) &&& 255

/-- Blue channel: `pixel & 0xFF` (line 59). -/
def getB (p : ℕ) : ℕ := p &&& 255

/-- The `RGBColorStats` dataclass (image_controller.py lines 7-17). -/
structure RGBColorStats where
  pixel_count : ℕ
  avg_r : ℝ
  avg_g : ℝ
  avg_b : ℝ
  avg_white : ℝ
  r_sd : ℝ
  g_sd : ℝ
  b_sd : ℝ
  white_sd : ℝ

/-- The region coordinates that survive the bounds guard, in loop order:
exactly the coordinates whose pixels `calculate_region_rgb_color_stats`
reads and counts (lines 51-54). -/
def statsCoords (img : QImageM) (reg : Region) : List (ℤ × ℤ) :=
  (regionCoords reg).filter fun p => decide (inBoundsP img p.1 p.2)

/-- `calculate_region_rgb_color_stats` (image_controller.py lines 25-106):
sums, means, and population standard deviations of the in-bounds region
pixels, with the all-zero sentinel for an empty region (lines 76-77). -/
noncomputable def calculate_region_rgb_color_stats (image : QImageM) (region : Region) :
    RGBColorStats :=
  let coords := statsCoords image region
  let pixel_count := coords.length
  if pixel_count = 0 then ⟨0, 0, 0, 0, 0, 0, 0, 0, 0⟩
  else
    let r_values : List ℕ := coords.map fun p => getR (image.pix p.1 p.2)
    let g_values : List ℕ := coords.map fun p => getG (image.pix p.1 p.2)
    let b_values : List ℕ := coords.map fun p => getB (image.pix p.1 p.2)
    let white_values : List ℝ := coords.map fun p =>
      ((getR (image.pix p.1 p.2) : ℝ) + (getG (image.pix p.1 p.2) : ℝ)
        + (getB (image.pix p.1 p.2) : ℝ)) / 3
    let avg_r : ℝ := (r_values.sum : ℝ) / (pixel_count : ℝ)
    let avg_g : ℝ := (g_values.sum : ℝ) / (pixel_count : ℝ)
    let avg_b : ℝ := (b_values.sum : ℝ) / (pixel_count : ℝ)
    let avg_white : ℝ := white_values.sum / (pixel_count : ℝ)
    let r_squared_diff_sum : ℝ := (r_values.map fun v => ((v : ℝ) - avg_r) ^ 2).sum
    let g_squared_diff_sum : ℝ := (g_values.map fun v => ((v : ℝ) - avg_g) ^ 2).sum
    let b_squared_diff_sum : ℝ := (b_values.map fun v => ((v : ℝ) - avg_b) ^ 2).sum
    let white_squared_diff_sum : ℝ := (white_values.map fun v => (v - avg_white) ^ 2).sum
    ⟨pixel_count, avg_r, avg_g, avg_b, avg_white,
      Real.sqrt (r_squared_diff_sum / (pixel_count : ℝ)),
      Real.sqrt (g_squared_diff_sum / (pixel_count : ℝ)),
      Real.sqrt (b_squared_diff_sum / (pixel_count : ℝ)),
      Real.sqrt (white_squared_diff_sum / (pixel_count : ℝ))⟩

/-- The inner `transform_value` closure (image_controller.py lines 136-143,
identical to the closure at lines 270-275). -/
noncomputable def transform_value (value curr_avg curr_sd target_avg target_sd : ℝ) : ℝ :=
  if curr_sd = 0 then target_avg
  else (value - curr_avg) * (target_sd / curr_sd) + target_avg

/-- Python 3 `round`: round half to even (banker's rounding). -/
noncomputable def pyRound (q : ℝ) : ℤ :=
  if Int.fract q < 1 / 2 then ⌊q⌋
  else if 1 / 2 < Int.fract q then ⌊q⌋ + 1
  else if Even ⌊q⌋ then ⌊q⌋ else ⌊q⌋ + 1

/-- `max(0, min(255, z))` applied to a rounded channel (lines 165-167). -/
def clampByte (z : ℤ) : ℕ := (max 0 (min 255 z)).toNat

/-- `(new_r << 16) | (new_g << 8) | new_b` (line 170, line 311). -/
def assemblePixel (r g b : ℕ) : ℕ := ((r <<< 16) ||| (g <<< 8)) ||| b

/-- One channel of the transform-round-clamp pipeline (lines 157-167). -/
noncomputable def shifted_channel (v : ℕ) (curr_avg curr_sd target_avg target_sd : ℝ) : ℕ :=
  clampByte (pyRound (transform_value (v : ℝ) curr_avg curr_sd target_avg target_sd))

/-- `apply_region_rgb_color_stats` (image_controller.py lines 108-173).
The loop writes each guarded region coordinate exactly once, reading only
that coordinate's original pixel, so it is transcribed pointwise: guarded
region pixels get the transformed value, all others keep their value. -/
noncomputable def apply_region_rgb_color_stats (image : QImageM) (region : Region)
    (color_stats source_color_stats : RGBColorStats) : QImageM :=
  { image with
    pix := fun x y =>
      if inRegionP region x y ∧ inBoundsP image x y then
        assemblePixel
          (shifted_channel (getR (image.pix x y)) color_stats.avg_r color_stats.r_sd
            source_color_stats.avg_r source_color_stats.r_sd)
          (shifted_channel (getG (image.pix x y)) color_stats.avg_g color_stats.g_sd
            source_color_stats.avg_g source_color_stats.g_sd)
          (shifted_channel (getB (image.pix x y)) color_stats.avg_b color_stats.b_sd
            source_color_stats.avg_b source_color_stats.b_sd)
      else image.pix x y }

/-- `TILE_SIZE = 32` (line 197). -/
def TILE_SIZE : ℤ := 32

/-- `OVERLAP = 16` (line 198). -/
def OVERLAP : ℤ := 16

/-- The tile placements `(tile_x, tile_y)` produced by
`for tile_y in range(y1, y2, OVERLAP): for tile_x in range(x1, x2, OVERLAP)`
(lines 210-211). -/
def tileStarts (region : Region) : List (ℤ × ℤ) :=
  (pyRangeStep region.y1 region.y2 OVERLAP).flatMap fun tile_y =>
    (pyRangeStep region.x1 region.x2 OVERLAP).map fun tile_x => (tile_x, tile_y)

/-- `tile_x2 = min(tile_x + TILE_SIZE - 1, x2)` (line 215). -/
def tileX2 (region : Region) (tile_x : ℤ) : ℤ := min (tile_x + TILE_SIZE - 1) region.x2

/-- `tile_y2 = min(tile_y + TILE_SIZE - 1, y2)` (line 216). -/
def tileY2 (region : Region) (tile_y : ℤ) : ℤ := min (tile_y + TILE_SIZE - 1) region.y2

/-- The skip guard `tile_x1 >= x2 or tile_y1 >= y2` (line 219). -/
def tileSkip (region : Region) (tile_x tile_y : ℤ) : Prop :=
  region.x2 ≤ tile_x ∨ region.y2 ≤ tile_y

instance (region : Region) (tile_x tile_y : ℤ) : Decidable (tileSkip region tile_x tile_y) :=
  inferInstanceAs (Decidable (region.x2 ≤ tile_x ∨ region.y2 ≤ tile_y))

/-- Membership of a pixel in the clipped tile
`for y in range(tile_y1, tile_y2 + 1): for x in range(tile_x1, tile_x2 + 1)`
(lines 232-233). -/
def inTileP (region : Region) (tile_x tile_y x y : ℤ) : Prop :=
  tile_x ≤ x ∧ x ≤ tileX2 region tile_x ∧ tile_y ≤ y ∧ y ≤ tileY2 region tile_y

instance (region : Region) (tile_x tile_y x y : ℤ) :
    Decidable (inTileP region tile_x tile_y x y) :=
  inferInstanceAs
    (Decidable (tile_x ≤ x ∧ x ≤ tileX2 region tile_x ∧ tile_y ≤ y ∧ y ≤ tileY2 region tile_y))

/-- The cosine-taper blend weight of one tile at one pixel
(image_controller.py lines 238-261). -/
noncomputable def tileWeight (region : Region) (tile_x tile_y x y : ℤ) : ℝ :=
  let effective_width : ℝ := ((tileX2 region tile_x - tile_x + 1 : ℤ) : ℝ)
  let effective_height : ℝ := ((tileY2 region tile_y - tile_y + 1 : ℤ) : ℝ)
  let tile_center_x : ℝ := (tile_x : ℝ) + effective_width / 2
  let tile_center_y : ℝ := (tile_y : ℝ) + effective_height / 2
  let dx : ℝ := |(x : ℝ) - tile_center_x|
  let dy : ℝ := |(y : ℝ) - tile_center_y|
  let max_dist_x : ℝ := effective_width / 2
  let max_dist_y : ℝ := effective_height / 2
  let norm_dx := dx / max_dist_x
  let norm_dy := dy / max_dist_y
  let norm_dist := max norm_dx norm_dy
  if 1 ≤ norm_dist then 0 else 0.5 * (1 + Real.cos (norm_dist * Real.pi))

/-- The transformed, rounded and clamped `(new_r, new_g, new_b)` a tile
computes for one pixel of the unmodified target image, using the tile's own
clipped statistics on target and reference (lines 226-288). -/
noncomputable def tileNewRGB (target_image reference_image : QImageM) (region : Region)
    (tile_x tile_y x y : ℤ) : ℕ × ℕ × ℕ :=
  let tile_region : Region := ⟨tile_x, tile_y, tileX2 region tile_x, tileY2 region tile_y⟩
  let target_stats := calculate_region_rgb_color_stats target_image tile_region
  let ref_stats := calculate_region_rgb_color_stats reference_image tile_region
  let pixel := target_image.pix x y
  (shifted_channel (getR pixel) target_stats.avg_r target_stats.r_sd
      ref_stats.avg_r ref_stats.r_sd,
    shifted_channel (getG pixel) target_stats.avg_g target_stats.g_sd
      ref_stats.avg_g ref_stats.g_sd,
    shifted_channel (getB pixel) target_stats.avg_b target_stats.b_sd
      ref_stats.avg_b ref_stats.b_sd)

/-- Accumulated blend weight `weight_buffer` at an absolute coordinate
(line 291; the buffer index is the coordinate relative to `(x1, y1)`, the
`+=` over the tile loop is the sum of the per-tile contributions). -/
noncomputable def weightAcc (region : Region) (x y : ℤ) : ℝ :=
  ((tileStarts region).map fun q =>
    if tileSkip region q.1 q.2 then 0
    else if inTileP region q.1 q.2 x y then tileWeight region q.1 q.2 x y else 0).sum

/-- Accumulated weighted red channel `color_buffer[..., 0]` (line 292). -/
noncomputable def colorAccR (target_image reference_image : QImageM) (region : Region)
    (x y : ℤ) : ℝ :=
  ((tileStarts region).map fun q =>
    if tileSkip region q.1 q.2 then 0
    else if inTileP region q.1 q.2 x y then
      ((tileNewRGB target_image reference_image region q.1 q.2 x y).1 : ℝ)
        * tileWeight region q.1 q.2 x y
    else 0).sum

/-- Accumulated weighted green channel `color_buffer[..., 1]` (line 293). -/
noncomputable def colorAccG (target_image reference_image : QImageM) (region : Region)
    (x y : ℤ) : ℝ :=
  ((tileStarts region).map fun q =>
    if tileSkip region q.1 q.2 then 0
    else if inTileP region q.1 q.2 x y then
      ((tileNewRGB target_image reference_image region q.1 q.2 x y).2.1 : ℝ)
        * tileWeight region q.1 q.2 x y
    else 0).sum

/-- Accumulated weighted blue channel `color_buffer[..., 2]` (line 294). -/
noncomputable def colorAccB (target_image reference_image : QImageM) (region : Region)
    (x y : ℤ) : ℝ :=
  ((tileStarts region).map fun q =>
    if tileSkip region q.1 q.2 then 0
    else if inTileP region q.1 q.2 x y then
      ((tileNewRGB target_image reference_image region q.1 q.2 x y).2.2 : ℝ)
        * tileWeight region q.1 q.2 x y
    else 0).sum

/-- `apply_region_lighting_transfer` (image_controller.py lines 176-314).
The function returns `result_image = target_image.copy()` (line 201) with
the normalize pass (lines 296-312) applied: a region pixel whose
accumulated weight is positive is set to the weight-normalised blended
color (the `inBoundsP` conjunct models `QImage.setPixel` dropping
out-of-range writes); every other pixel keeps the copied target value.
The caller's target image is only read, never written. -/
noncomputable def apply_region_lighting_transfer (target_image reference_image : QImageM)
    (region : Region) : QImageM :=
  { target_image with
    pix := fun x y =>
      if inRegionP region x y ∧ inBoundsP target_image x y ∧ 0 < weightAcc region x y then
        assemblePixel
          (clampByte (pyRound
            (colorAccR target_image reference_image region x y / weightAcc region x y)))
          (clampByte (pyRound
            (colorAccG target_image reference_image region x y / weightAcc region x y)))
          (clampByte (pyRound
            (colorAccB target_image reference_image region x y / weightAcc region x y)))
      else target_image.pix x y }

/-- The coordinates at which the tile pixel loop of
`apply_region_lighting_transfer` calls `target_image.pixel(x, y)`
(line 264): every coordinate of every clipped tile, with no bounds guard. -/
def tileReadCoords (region : Region) : List (ℤ × ℤ) :=
  (tileStarts region).flatMap fun q =>
    if tileSkip region q.1 q.2 then []
    else (intRange q.2 (tileY2 region q.2)).flatMap fun y =>
      (intRange q.1 (tileX2 region q.1)).map fun x => (x, y)

/-- A 2×2 image whose four pixels are all `(100, 100, 100)`. -/
def imgGray2 : QImageM := ⟨2, 2, fun _ _ => 6579300⟩

/-- A 2×2 image whose four pixels are all `(0, 0, 0)`. -/
def imgBlack2 : QImageM := ⟨2, 2, fun _ _ => 0⟩

/-- A 2×2 image with rows `(0,0,0), (255,255,255)` (column 0 black, column 1 white). -/
def imgCheck2 : QImageM := ⟨2, 2, fun x _ => if x = 0 then 0 else 16777215⟩

/-- A 1×1 image whose pixel is `(0, 0, 5)`. -/
def img1x1 : QImageM := ⟨1, 1, fun _ _ => 5⟩

/-- The region `(0, 0, 1, 1)`: the full 2×2 rectangle. -/
def regionUnit : Region := ⟨0, 0, 1, 1⟩

/-- A statistics value with zero standard deviations and averages `10`. -/
noncomputable def statsTen : RGBColorStats := ⟨1, 10, 10, 10, 10, 0, 0, 0, 0⟩

/-- A statistics value with nonzero standard deviations. -/
noncomputable def statsSpread : RGBColorStats := ⟨1, 3, 3, 3, 3, 2, 2, 2, 2⟩

/-- A coordinate is in `intRange a b` exactly when it lies in `[a, b]`. -/
lemma mem_intRange {a b x : ℤ} : x ∈ intRange a b ↔ a ≤ x ∧ x ≤ b := by
  simp only [intRange, List.mem_map, List.mem_range]
  constructor
  · rintro ⟨i, hi, rfl⟩
    omega
  · intro h
    exact ⟨(x - a).toNat, by omega, by omega⟩

/-- A coordinate pair is visited by the region loops exactly when it is in the
inclusive rectangle. -/
lemma mem_regionCoords {reg : Region} {p : ℤ × ℤ} :
    p ∈ regionCoords reg ↔ inRegionP reg p.1 p.2 := by
  obtain ⟨x, y⟩ := p
  simp only [regionCoords, List.mem_flatMap, List.mem_map, mem_intRange, inRegionP,
    Prod.mk.injEq]
  constructor
  · rintro ⟨y', hy', x', hx', rfl, rfl⟩
    exact ⟨hx'.1, hx'.2, hy'.1, hy'.2⟩
  · rintro ⟨h1, h2, h3, h4⟩
    exact ⟨y, ⟨h3, h4⟩, x, ⟨h1, h2⟩, rfl, rfl⟩

/-- The pixels visited by the statistics loop are the in-bounds region pixels. -/
lemma mem_statsCoords {img : QImageM} {reg : Region} {p : ℤ × ℤ} :
    p ∈ statsCoords img reg ↔ inRegionP reg p.1 p.2 ∧ inBoundsP img p.1 p.2 := by
  simp [statsCoords, List.mem_filter, mem_regionCoords]

/-- Python round of an integer is that integer. -/
lemma pyRound_intCast (n : ℤ) : pyRound (n : ℝ) = n := by
  rw [pyRound, if_pos]
  · exact Int.floor_intCast n
  · rw [Int.fract_intCast]
    norm_num

/-- Python round of a natural number is that number. -/
lemma pyRound_natCast (n : ℕ) : pyRound (n : ℝ) = n := by
  rw [show ((n : ℝ)) = ((n : ℤ) : ℝ) by push_cast; ring, pyRound_intCast]

/-- Python round of zero. -/
lemma pyRound_zero : pyRound 0 = 0 := by
  rw [show (0 : ℝ) = ((0 : ℤ) : ℝ) by norm_num, pyRound_intCast]

/-- The clamp never exceeds 255. -/
lemma clampByte_le (z : ℤ) : clampByte z ≤ 255 := by
  unfold clampByte
  omega

/-- Clamping a byte-sized natural is the identity. -/
lemma clampByte_natCast {n : ℕ} (h : n ≤ 255) : clampByte (n : ℤ) = n := by
  unfold clampByte
  omega

/-- Extracted channels are bytes. -/
lemma getR_le (p : ℕ) : getR p ≤ 255 := Nat.and_le_right

/-- Extracted channels are bytes. -/
lemma getG_le (p : ℕ) : getG p ≤ 255 := Nat.and_le_right

/-- Extracted channels are bytes. -/
lemma getB_le (p : ℕ) : getB p ≤ 255 := Nat.and_le_right

/-- A pixel assembled from bytes has its high (alpha) byte zero. -/
lemma assemblePixel_lt (r g b : ℕ) (hr : r ≤ 255) (hg : g ≤ 255) (hb : b ≤ 255) :
    assemblePixel r g b < 2 ^ 24 := by
  have h1 : r <<< 16 < 2 ^ 24 := by
    rw [Nat.shiftLeft_eq]
    calc r * 2 ^ 16 ≤ 255 * 2 ^ 16 := Nat.mul_le_mul_right _ hr
    _ < 2 ^ 24 := by norm_num
  have h2 : g <<< 8 < 2 ^ 24 := by
    rw [Nat.shiftLeft_eq]
    calc g * 2 ^ 8 ≤ 255 * 2 ^ 8 := Nat.mul_le_mul_right _ hg
    _ < 2 ^ 24 := by norm_num
  have h3 : b < 2 ^ 24 := by omega
  exact Nat.bitwise_lt (Nat.bitwise_lt h1 h2) h3

/-- The transform with identical nondegenerate statistics is the identity. -/
lemma transform_value_id (v a : ℝ) {s : ℝ} (hs : s ≠ 0) : transform_value v a s a s = v := by
  rw [transform_value, if_neg hs, div_self hs, mul_one]
  ring

/-- Transform-round-clamp with identical nondegenerate statistics returns the
original byte. -/
lemma shifted_channel_id (v : ℕ) (hv : v ≤ 255) (a : ℝ) {s : ℝ} (hs : s ≠ 0) :
    shifted_channel v a s a s = v := by
  rw [shifted_channel, transform_value_id _ _ hs, pyRound_natCast, clampByte_natCast hv]

/-- An empty Python stepped range. -/
lemma pyRangeStep_nil {a b : ℤ} (h : b ≤ a) : pyRangeStep a b OVERLAP = [] := by
  unfold pyRangeStep OVERLAP
  rw [show (b - a).toNat = 0 by omega]
  rfl

/-- A Python stepped range with exactly one element. -/
lemma pyRangeStep_single {a b : ℤ} (h1 : a < b) (h2 : b ≤ a + 16) :
    pyRangeStep a b OVERLAP = [a] := by
  unfold pyRangeStep OVERLAP
  rw [show ((16 : ℤ)).toNat = 16 from rfl,
    show ((b - a).toNat + 16 - 1) / 16 = 1 by omega]
  simp [List.range_succ]

/-- With a degenerate axis (`x1 = x2` or `y1 = y2`) no tile is placed. -/
lemma tileStarts_nil {reg : Region} (h : reg.x1 = reg.x2 ∨ reg.y1 = reg.y2) :
    tileStarts reg = [] := by
  unfold tileStarts
  rcases h with h | h
  · simp only [pyRangeStep_nil (le_of_eq h.symm)]
    simp
  · rw [pyRangeStep_nil (le_of_eq h.symm)]
    rfl

/-- A single-window region places exactly the tile at `(x1, y1)`. -/
lemma tileStarts_single {reg : Region} (hx1 : reg.x1 < reg.x2) (hx2 : reg.x2 ≤ reg.x1 + 16)
    (hy1 : reg.y1 < reg.y2) (hy2 : reg.y2 ≤ reg.y1 + 16) :
    tileStarts reg = [(reg.x1, reg.y1)] := by
  unfold tileStarts
  rw [pyRangeStep_single hy1 hy2, pyRangeStep_single hx1 hx2]
  rfl

/-- If no tile is placed, the accumulated weight is zero everywhere. -/
lemma weightAcc_of_nil {reg : Region} (h : tileStarts reg = []) (x y : ℤ) :
    weightAcc reg x y = 0 := by
  unfold weightAcc
  rw [h]
  rfl

/-- A pixel with zero accumulated weight keeps the (copied) target value. -/
lemma transfer_pix_of_weight_zero (t r : QImageM) (reg : Region) (x y : ℤ)
    (h : weightAcc reg x y = 0) :
    (apply_region_lighting_transfer t r reg).pix x y = t.pix x y := by
  simp only [apply_region_lighting_transfer]
  rw [if_neg]
  rintro ⟨-, -, hw⟩
  rw [h] at hw
  exact lt_irrefl 0 hw

lemma gray_pix (x y : ℤ) : imgGray2.pix x y = 6579300 := rfl

lemma getR_gray : getR 6579300 = 100 := by decide

lemma getG_gray : getG 6579300 = 100 := by decide

lemma getB_gray : getB 6579300 = 100 := by decide

lemma calc_gray : calculate_region_rgb_color_stats imgGray2 regionUnit =
    ⟨4, 100, 100, 100, 100, 0, 0, 0, 0⟩ := by
  have hc : statsCoords imgGray2 regionUnit = [(0,0),(1,0),(0,1),(1,1)] := by decide
  simp only [calculate_region_rgb_color_stats, hc, gray_pix, getR_gray, getG_gray, getB_gray,
    List.map_cons, List.map_nil, List.sum_cons, List.sum_nil, List.length_cons, List.length_nil]
  rw [if_neg (by norm_num)]
  rw [RGBColorStats.mk.injEq]
  refine ⟨by norm_num, by push_cast; norm_num, by push_cast; norm_num, by push_cast; norm_num,
    by push_cast; norm_num, ?_, ?_, ?_, ?_⟩ <;>
    exact Real.sqrt_eq_zero'.mpr (by push_cast; norm_num)

lemma black_pix (x y : ℤ) : imgBlack2.pix x y = 0 := rfl

lemma calc_black : calculate_region_rgb_color_stats imgBlack2 regionUnit =
    ⟨4, 0, 0, 0, 0, 0, 0, 0, 0⟩ := by
  have hc : statsCoords imgBlack2 regionUnit = [(0,0),(1,0),(0,1),(1,1)] := by decide
  simp only [calculate_region_rgb_color_stats, hc, black_pix,
    show getR 0 = 0 from rfl, show getG 0 = 0 from rfl, show getB 0 = 0 from rfl,
    List.map_cons, List.map_nil, List.sum_cons, List.sum_nil, List.length_cons, List.length_nil]
  rw [if_neg (by norm_num)]
  rw [RGBColorStats.mk.injEq]
  refine ⟨by norm_num, by push_cast; norm_num, by push_cast; norm_num, by push_cast; norm_num,
    by push_cast; norm_num, ?_, ?_, ?_, ?_⟩ <;>
    exact Real.sqrt_eq_zero'.mpr (by push_cast; norm_num)

lemma sqrt_eq_of_sq {a b : ℝ} (hb : 0 ≤ b) (h : b ^ 2 = a) : Real.sqrt a = b := by
  rw [← h, Real.sqrt_sq hb]

lemma check_pix0 (y : ℤ) : imgCheck2.pix 0 y = 0 := rfl

lemma check_pix1 (y : ℤ) : imgCheck2.pix 1 y = 16777215 := rfl

lemma calc_check : calculate_region_rgb_color_stats imgCheck2 regionUnit =
    ⟨4, 255/2, 255/2, 255/2, 255/2, 255/2, 255/2, 255/2, 255/2⟩ := by
  have hc : statsCoords imgCheck2 regionUnit = [(0,0),(1,0),(0,1),(1,1)] := by decide
  simp only [calculate_region_rgb_color_stats, hc, check_pix0, check_pix1,
    show getR 0 = 0 from rfl, show getG 0 = 0 from rfl, show getB 0 = 0 from rfl,
    show getR 16777215 = 255 from by decide, show getG 16777215 = 255 from by decide,
    show getB 16777215 = 255 from by decide,
    List.map_cons, List.map_nil, List.sum_cons, List.sum_nil, List.length_cons, List.length_nil]
  rw [if_neg (by norm_num)]
  rw [RGBColorStats.mk.injEq]
  refine ⟨by norm_num, by push_cast; norm_num, by push_cast; norm_num, by push_cast; norm_num,
    by push_cast; norm_num, ?_, ?_, ?_, ?_⟩ <;>
    exact sqrt_eq_of_sq (by norm_num) (by push_cast; norm_num)

lemma tileX2_unit : tileX2 regionUnit 0 = 1 := by decide

lemma tileY2_unit : tileY2 regionUnit 0 = 1 := by decide

lemma tileStarts_unit : tileStarts regionUnit = [(0, 0)] := by decide

lemma tileWeight_unit_11 : tileWeight regionUnit 0 0 1 1 = 1 := by
  simp only [tileWeight, tileX2_unit, tileY2_unit]
  push_cast
  norm_num [Real.cos_zero]

lemma tileWeight_unit_00 : tileWeight regionUnit 0 0 0 0 = 0 := by
  simp only [tileWeight, tileX2_unit, tileY2_unit]
  push_cast
  norm_num

lemma weightAcc_unit_11 : weightAcc regionUnit 1 1 = 1 := by
  simp only [weightAcc, tileStarts_unit, List.map_cons, List.map_nil, List.sum_cons,
    List.sum_nil]
  rw [if_neg (by decide), if_pos (by decide), tileWeight_unit_11]
  norm_num

lemma weightAcc_unit_00 : weightAcc regionUnit 0 0 = 0 := by
  simp only [weightAcc, tileStarts_unit, List.map_cons, List.map_nil, List.sum_cons,
    List.sum_nil]
  rw [if_neg (by decide), if_pos (by decide), tileWeight_unit_00]
  norm_num

lemma transform_value_sd_zero (v a ta ts : ℝ) : transform_value v a 0 ta ts = ta := by
  rw [transform_value, if_pos rfl]

lemma shifted_channel_sd_zero (v : ℕ) (a ta ts : ℝ) :
    shifted_channel v a 0 ta ts = clampByte (pyRound ta) := by
  rw [shifted_channel, transform_value_sd_zero]

lemma tileNewRGB_gb_11 : tileNewRGB imgGray2 imgBlack2 regionUnit 0 0 1 1 = (0, 0, 0) := by
  simp only [tileNewRGB, tileX2_unit, tileY2_unit,
    show (⟨0, 0, 1, 1⟩ : Region) = regionUnit from rfl, calc_gray, calc_black, gray_pix,
    getR_gray, getG_gray, getB_gray, shifted_channel_sd_zero]
  rw [pyRound_zero]
  decide

lemma colorAccR_gb_11 : colorAccR imgGray2 imgBlack2 regionUnit 1 1 = 0 := by
  simp only [colorAccR, tileStarts_unit, List.map_cons, List.map_nil, List.sum_cons,
    List.sum_nil]
  rw [if_neg (by decide), if_pos (by decide), tileNewRGB_gb_11]
  norm_num

lemma colorAccG_gb_11 : colorAccG imgGray2 imgBlack2 regionUnit 1 1 = 0 := by
  simp only [colorAccG, tileStarts_unit, List.map_cons, List.map_nil, List.sum_cons,
    List.sum_nil]
  rw [if_neg (by decide), if_pos (by decide), tileNewRGB_gb_11]
  norm_num

lemma colorAccB_gb_11 : colorAccB imgGray2 imgBlack2 regionUnit 1 1 = 0 := by
  simp only [colorAccB, tileStarts_unit, List.map_cons, List.map_nil, List.sum_cons,
    List.sum_nil]
  rw [if_neg (by decide), if_pos (by decide), tileNewRGB_gb_11]
  norm_num

lemma transfer_gb_11 : (apply_region_lighting_transfer imgGray2 imgBlack2 regionUnit).pix 1 1 = 0 := by
  simp only [apply_region_lighting_transfer]
  rw [if_pos ⟨by decide, by decide, by rw [weightAcc_unit_11]; norm_num⟩]
  rw [weightAcc_unit_11, colorAccR_gb_11, colorAccG_gb_11, colorAccB_gb_11]
  rw [show (0 : ℝ) / 1 = 0 by norm_num, pyRound_zero]
  decide

lemma transfer_gb_00 :
    (apply_region_lighting_transfer imgGray2 imgBlack2 regionUnit).pix 0 0 = 6579300 := by
  rw [transfer_pix_of_weight_zero _ _ _ _ _ weightAcc_unit_00, gray_pix]

lemma phase1_gb_00 :
    (apply_region_rgb_color_stats imgGray2 regionUnit
      (calculate_region_rgb_color_stats imgGray2 regionUnit)
      (calculate_region_rgb_color_stats imgBlack2 regionUnit)).pix 0 0 = 0 := by
  rw [calc_gray, calc_black]
  simp only [apply_region_rgb_color_stats]
  rw [if_pos ⟨by decide, by decide⟩]
  simp only [gray_pix, getR_gray, getG_gray, getB_gray, shifted_channel_sd_zero]
  rw [pyRound_zero]
  decide

/-- The transform-round-clamp pipeline always produces a byte. -/
lemma shifted_channel_le (v : ℕ) (a s ta ts : ℝ) : shifted_channel v a s ta ts ≤ 255 :=
  clampByte_le _

/-- C1 counterexample: on the 2×2 gray target and black reference with region
`(0,0,1,1)`, pixel `(0,0)` ends the local pass with accumulated weight exactly
`0`, and the returned pixel is the untouched original `6579300` — not the
value `0` that a phase-1 global shift of the whole region (the region-stats
color shift `target → reference`) would have given it. The code has no global
shift phase: weight-0 pixels keep the original target value. -/
theorem c1_counterexample :
    weightAcc regionUnit 0 0 = 0 ∧
    (apply_region_lighting_transfer imgGray2 imgBlack2 regionUnit).pix 0 0 = 6579300 ∧
    (apply_region_rgb_color_stats imgGray2 regionUnit
      (calculate_region_rgb_color_stats imgGray2 regionUnit)
      (calculate_region_rgb_color_stats imgBlack2 regionUnit)).pix 0 0 = 0 ∧
    (6579300 : ℕ) ≠ 0 :=
  ⟨weightAcc_unit_00, transfer_gb_00, phase1_gb_00, by decide⟩

/-- C1 (amended): `apply_region_lighting_transfer` performs no global shift;
every pixel whose accumulated blend weight is exactly `0` after the local
tile pass retains the original target value in the returned buffer (it is
never left unset, but it is not globally shifted either). -/
theorem c1_amended_zero_weight_keeps_original (t r : QImageM) (reg : Region) (x y : ℤ)
    (h : weightAcc reg x y = 0) :
    (apply_region_lighting_transfer t r reg).pix x y = t.pix x y :=
  transfer_pix_of_weight_zero t r reg x y h

/-- C1 witness: pixel `(0,0)` of the unit region has accumulated weight `0`
and keeps its original value. -/
theorem c1_amended_witness :
    weightAcc regionUnit 0 0 = 0 ∧
    (apply_region_lighting_transfer imgGray2 imgBlack2 regionUnit).pix 0 0 =
      imgGray2.pix 0 0 :=
  ⟨weightAcc_unit_00,
    c1_amended_zero_weight_keeps_original imgGray2 imgBlack2 regionUnit 0 0 weightAcc_unit_00⟩

/-- C2 counterexample: in the source every `setPixel` of
`apply_region_lighting_transfer` is performed on
`result_image = target_image.copy()` (line 201), never on `target_image`,
so after the call the caller's target buffer still holds its original
pixels; here the returned buffer differs from the (unmodified) target at
`(1,1)`, so the returned buffer is not the caller's target buffer and the
target does not hold the transferred result. -/
theorem c2_counterexample :
    (apply_region_lighting_transfer imgGray2 imgBlack2 regionUnit).pix 1 1 ≠
      imgGray2.pix 1 1 := by
  rw [transfer_gb_11, gray_pix]
  decide

/-- C2 (amended): `apply_region_lighting_transfer` does not mutate the
caller's target buffer; it returns a fresh copy of the target (same
dimensions) in which each pixel either keeps the copied target value or is
the weight-normalised blended value. The transferred result lives in the
returned buffer, not in the target passed in. -/
theorem c2_amended_result_is_copy (t r : QImageM) (reg : Region) :
    (apply_region_lighting_transfer t r reg).width = t.width ∧
    (apply_region_lighting_transfer t r reg).height = t.height ∧
    ∀ x y, (apply_region_lighting_transfer t r reg).pix x y = t.pix x y ∨
      (apply_region_lighting_transfer t r reg).pix x y =
        assemblePixel
          (clampByte (pyRound (colorAccR t r reg x y / weightAcc reg x y)))
          (clampByte (pyRound (colorAccG t r reg x y / weightAcc reg x y)))
          (clampByte (pyRound (colorAccB t r reg x y / weightAcc reg x y))) := by
  refine ⟨rfl, rfl, fun x y => ?_⟩
  simp only [apply_region_lighting_transfer]
  split_ifs with h
  · right
    rfl
  · left
    rfl

/-- C3 counterexample: region `(0,0,1,1)` produces exactly one window
placement covering the whole region, yet the transfer output differs from
the whole-region color shift at pixel `(0,0)`: that corner pixel has
normalised distance `1` from the single window's center, hence blend weight
`0`, so it keeps the original value instead of the shifted one. -/
theorem c3_counterexample :
    tileStarts regionUnit = [(0, 0)] ∧
    (apply_region_lighting_transfer imgGray2 imgBlack2 regionUnit).pix 0 0 ≠
      (apply_region_rgb_color_stats imgGray2 regionUnit
        (calculate_region_rgb_color_stats imgGray2 regionUnit)
        (calculate_region_rgb_color_stats imgBlack2 regionUnit)).pix 0 0 := by
  refine ⟨tileStarts_unit, ?_⟩
  rw [transfer_gb_00, phase1_gb_00]
  decide

/-- C3 (amended): when the tiling produces exactly one window placement
covering the whole region (`x1 < x2 ≤ x1 + 16` and `y1 < y2 ≤ y1 + 16`), the
transfer output agrees pixel for pixel with
`apply_region_rgb_color_stats` over the whole region (current = target's
region stats, target = reference's region stats) at every pixel whose
accumulated blend weight is positive; weight-0 pixels keep the original
target value instead. -/
theorem c3_amended_single_window (t r : QImageM) (reg : Region)
    (hx1 : reg.x1 < reg.x2) (hx2 : reg.x2 ≤ reg.x1 + 16)
    (hy1 : reg.y1 < reg.y2) (hy2 : reg.y2 ≤ reg.y1 + 16)
    (x y : ℤ) (hw : 0 < weightAcc reg x y) :
    (apply_region_lighting_transfer t r reg).pix x y =
      (apply_region_rgb_color_stats t reg (calculate_region_rgb_color_stats t reg)
        (calculate_region_rgb_color_stats r reg)).pix x y := by
  have hts := tileStarts_single hx1 hx2 hy1 hy2
  have htx : tileX2 reg reg.x1 = reg.x2 := by
    unfold tileX2 TILE_SIZE
    omega
  have hty : tileY2 reg reg.y1 = reg.y2 := by
    unfold tileY2 TILE_SIZE
    omega
  have htreg : (⟨reg.x1, reg.y1, tileX2 reg reg.x1, tileY2 reg reg.y1⟩ : Region) = reg := by
    rw [htx, hty]
  have hskip : ¬ tileSkip reg reg.x1 reg.y1 := by
    rintro (h | h) <;> omega
  have hwa : weightAcc reg x y =
      if inTileP reg reg.x1 reg.y1 x y then tileWeight reg reg.x1 reg.y1 x y else 0 := by
    simp only [weightAcc, hts, List.map_cons, List.map_nil, List.sum_cons, List.sum_nil,
      if_neg hskip]
    rw [add_zero]
  have hin : inTileP reg reg.x1 reg.y1 x y := by
    by_contra hni
    rw [hwa, if_neg hni] at hw
    exact lt_irrefl 0 hw
  have hwv : weightAcc reg x y = tileWeight reg reg.x1 reg.y1 x y := by rw [hwa, if_pos hin]
  have hwpos : 0 < tileWeight reg reg.x1 reg.y1 x y := hwv ▸ hw
  have hwne : tileWeight reg reg.x1 reg.y1 x y ≠ 0 := ne_of_gt hwpos
  have hreg : inRegionP reg x y := by
    have h1 : reg.x1 ≤ x ∧ x ≤ tileX2 reg reg.x1 ∧ reg.y1 ≤ y ∧ y ≤ tileY2 reg reg.y1 := hin
    rw [htx, hty] at h1
    exact h1
  have hca : colorAccR t r reg x y =
      ((tileNewRGB t r reg reg.x1 reg.y1 x y).1 : ℝ) * tileWeight reg reg.x1 reg.y1 x y := by
    simp only [colorAccR, hts, List.map_cons, List.map_nil, List.sum_cons, List.sum_nil,
      if_neg hskip, if_pos hin]
    rw [add_zero]
  have hcg : colorAccG t r reg x y =
      ((tileNewRGB t r reg reg.x1 reg.y1 x y).2.1 : ℝ) * tileWeight reg reg.x1 reg.y1 x y := by
    simp only [colorAccG, hts, List.map_cons, List.map_nil, List.sum_cons, List.sum_nil,
      if_neg hskip, if_pos hin]
    rw [add_zero]
  have hcb : colorAccB t r reg x y =
      ((tileNewRGB t r reg reg.x1 reg.y1 x y).2.2 : ℝ) * tileWeight reg reg.x1 reg.y1 x y := by
    simp only [colorAccB, hts, List.map_cons, List.map_nil, List.sum_cons, List.sum_nil,
      if_neg hskip, if_pos hin]
    rw [add_zero]
  have hdiv : ∀ v : ℕ,
      ((v : ℝ) * tileWeight reg reg.x1 reg.y1 x y) / tileWeight reg reg.x1 reg.y1 x y
        = (v : ℝ) := fun v => mul_div_cancel_right₀ _ hwne
  simp only [apply_region_lighting_transfer, apply_region_rgb_color_stats]
  by_cases hb : inBoundsP t x y
  · rw [if_pos ⟨hreg, hb, hw⟩, if_pos ⟨hreg, hb⟩]
    rw [hwv, hca, hcg, hcb, hdiv, hdiv, hdiv]
    simp only [tileNewRGB, htreg]
    rw [pyRound_natCast, pyRound_natCast, pyRound_natCast,
      clampByte_natCast (shifted_channel_le _ _ _ _ _),
      clampByte_natCast (shifted_channel_le _ _ _ _ _),
      clampByte_natCast (shifted_channel_le _ _ _ _ _)]
  · rw [if_neg fun hc => hb hc.2.1, if_neg fun hc => hb hc.2]

/-- C3 witness: on the concrete single-window instance, the center pixel
`(1,1)` has positive weight and the two outputs agree there. -/
theorem c3_amended_witness :
    0 < weightAcc regionUnit 1 1 ∧
    (apply_region_lighting_transfer imgGray2 imgBlack2 regionUnit).pix 1 1 =
      (apply_region_rgb_color_stats imgGray2 regionUnit
        (calculate_region_rgb_color_stats imgGray2 regionUnit)
        (calculate_region_rgb_color_stats imgBlack2 regionUnit)).pix 1 1 := by
  have hw : 0 < weightAcc regionUnit 1 1 := by
    rw [weightAcc_unit_11]
    norm_num
  exact ⟨hw, c3_amended_single_window imgGray2 imgBlack2 regionUnit (by decide) (by decide)
    (by decide) (by decide) 1 1 hw⟩

/-- C4 counterexample: for the region `(0,0,1,1)` on a 1×1 buffer, the tile
pixel loop of `apply_region_lighting_transfer` calls `target_image.pixel` at
`(1,1)`, a coordinate outside `[0, width) × [0, height)`: unlike the
statistics and color-shift loops, the tile pixel loop has no bounds guard,
so the transfer does read out-of-bounds coordinates. -/
theorem c4_counterexample :
    ((1 : ℤ), (1 : ℤ)) ∈ tileReadCoords regionUnit ∧ ¬ inBoundsP img1x1 1 1 :=
  ⟨by decide, by decide⟩

/-- C4 (amended): `calculate_region_rgb_color_stats` reads only in-bounds
coordinates, and `apply_region_rgb_color_stats` never changes a pixel at an
out-of-bounds coordinate (both silently skip them, raising no error); but
the tile pixel loop of `apply_region_lighting_transfer` reads the target at
every tile coordinate with no bounds guard, and so does access out-of-bounds
coordinates when the region extends past the buffer (only its per-tile
statistics calls clip). -/
theorem c4_amended_bounds :
    (∀ (img : QImageM) (reg : Region), ∀ p ∈ statsCoords img reg, inBoundsP img p.1 p.2) ∧
    (∀ (img : QImageM) (reg : Region) (cs scs : RGBColorStats) (x y : ℤ),
      ¬ inBoundsP img x y →
        (apply_region_rgb_color_stats img reg cs scs).pix x y = img.pix x y) ∧
    (((1 : ℤ), (1 : ℤ)) ∈ tileReadCoords regionUnit ∧ ¬ inBoundsP img1x1 1 1) := by
  refine ⟨fun img reg p hp => (mem_statsCoords.mp hp).2, fun img reg cs scs x y h => ?_,
    by decide, by decide⟩
  simp only [apply_region_rgb_color_stats]
  rw [if_neg fun hc => h hc.2]

/-- C4 witness: the in-bounds coordinate `(0,0)` of a 1×1 buffer is among the
statistics reads, and an out-of-bounds coordinate is left unchanged by the
color shift. -/
theorem c4_amended_witness :
    inBoundsP img1x1 0 0 ∧
    (apply_region_rgb_color_stats img1x1 regionUnit statsTen statsTen).pix 2 0 =
      img1x1.pix 2 0 :=
  ⟨c4_amended_bounds.1 img1x1 ⟨0, 0, 0, 0⟩ (0, 0) (by decide),
    c4_amended_bounds.2.1 img1x1 regionUnit statsTen statsTen 2 0 (by decide)⟩

/-- C5: `transform_value` returns `target_avg` whenever `curr_sd = 0`, for
every value, and otherwise returns exactly
`((value - curr_avg) * (target_sd / curr_sd)) + target_avg`. -/
theorem c5_transform_value_spec (value curr_avg curr_sd target_avg target_sd : ℝ) :
    (curr_sd = 0 → transform_value value curr_avg curr_sd target_avg target_sd = target_avg) ∧
    (curr_sd ≠ 0 → transform_value value curr_avg curr_sd target_avg target_sd =
      (value - curr_avg) * (target_sd / curr_sd) + target_avg) := by
  constructor
  · intro h
    rw [transform_value, if_pos h]
  · intro h
    rw [transform_value, if_neg h]

/-- C5 witness: both branches evaluated at concrete inputs. -/
theorem c5_transform_value_spec_witness :
    transform_value 7 3 0 11 5 = 11 ∧
    transform_value 7 3 2 11 5 = (7 - 3) * (5 / 2) + 11 :=
  ⟨(c5_transform_value_spec 7 3 0 11 5).1 rfl,
    (c5_transform_value_spec 7 3 2 11 5).2 (by norm_num)⟩

/-- C6: on the fully in-bounds 2×2 region whose pixels are
`(0,0,0), (255,255,255), (0,0,0), (255,255,255)` the statistics are
`pixel_count = 4`, all averages `127.5 = 255/2` and all standard deviations
`127.5 = 255/2` — the population formula (dividing the squared deviations by
`pixel_count`, not `pixel_count - 1`, which would give `sd ≈ 147.2`). -/
theorem c6_population_stats_on_checkerboard :
    calculate_region_rgb_color_stats imgCheck2 regionUnit =
      ⟨4, 255 / 2, 255 / 2, 255 / 2, 255 / 2, 255 / 2, 255 / 2, 255 / 2, 255 / 2⟩ :=
  calc_check

/-- C7: if no coordinate of the region is in bounds,
`calculate_region_rgb_color_stats` returns the sentinel with
`pixel_count = 0` and every other field exactly `0`; conversely
`pixel_count = 0` occurs only in that case. -/
theorem c7_empty_region_sentinel (img : QImageM) (reg : Region) :
    ((∀ x y, inRegionP reg x y → ¬ inBoundsP img x y) →
      calculate_region_rgb_color_stats img reg = ⟨0, 0, 0, 0, 0, 0, 0, 0, 0⟩) ∧
    ((calculate_region_rgb_color_stats img reg).pixel_count = 0 →
      ∀ x y, inRegionP reg x y → ¬ inBoundsP img x y) := by
  have key : statsCoords img reg = [] ↔ ∀ x y, inRegionP reg x y → ¬ inBoundsP img x y := by
    constructor
    · intro h x y hr hb
      have hmem : (x, y) ∈ statsCoords img reg := mem_statsCoords.mpr ⟨hr, hb⟩
      rw [h] at hmem
      exact absurd hmem (List.not_mem_nil _)
    · intro h
      rw [List.eq_nil_iff_forall_not_mem]
      intro p hp
      obtain ⟨hr, hb⟩ := mem_statsCoords.mp hp
      exact h p.1 p.2 hr hb
  constructor
  · intro h
    simp [calculate_region_rgb_color_stats, key.mpr h]
  · intro h0 x y hr hb
    have hmem : (x, y) ∈ statsCoords img reg := mem_statsCoords.mpr ⟨hr, hb⟩
    have hlen0 : (statsCoords img reg).length ≠ 0 := by
      intro hl
      rw [List.length_eq_zero.mp hl] at hmem
      exact absurd hmem (List.not_mem_nil _)
    simp only [calculate_region_rgb_color_stats] at h0
    rw [if_neg hlen0] at h0
    exact hlen0 h0

/-- C7 witness: a region entirely outside a 1×1 buffer yields the sentinel. -/
theorem c7_empty_region_sentinel_witness :
    calculate_region_rgb_color_stats img1x1 ⟨5, 5, 6, 6⟩ = ⟨0, 0, 0, 0, 0, 0, 0, 0, 0⟩ :=
  (c7_empty_region_sentinel img1x1 ⟨5, 5, 6, 6⟩).1 (by
    intro x y hr hb
    have hr' : (5 : ℤ) ≤ x ∧ x ≤ 6 ∧ 5 ≤ y ∧ y ≤ 6 := hr
    have hb' : (0 : ℤ) ≤ x ∧ 0 ≤ y ∧ x < 1 ∧ y < 1 := hb
    omega)

/-- C8 counterexample: with an arbitrary statistics value `S` whose standard
deviations are `0` (here averages `10`), `apply_region_rgb_color_stats buf
reg S S` does not leave the pixel unchanged: the pixel `(0,0,5)` becomes
`(10,10,10)`, because a zero `curr_sd` collapses every channel to `S`'s
average regardless of the original value. -/
theorem c8_counterexample :
    (apply_region_rgb_color_stats img1x1 ⟨0, 0, 0, 0⟩ statsTen statsTen).pix 0 0 ≠
      img1x1.pix 0 0 := by
  simp only [apply_region_rgb_color_stats]
  rw [if_pos ⟨by decide, by decide⟩]
  simp only [statsTen, shifted_channel_sd_zero]
  rw [show (10 : ℝ) = ((10 : ℤ) : ℝ) by norm_num, pyRound_intCast]
  decide

/-- C8 (amended): for every statistics value `S` whose `r_sd`, `g_sd` and
`b_sd` are all nonzero, `apply_region_rgb_color_stats buf reg S S` leaves the
R, G, B channels of every in-bounds region pixel unchanged: the written word
is reassembled from the original channels (so its alpha byte is cleared, per
C9); all other pixels keep their exact original value. -/
theorem c8_amended_identity (img : QImageM) (reg : Region) (S : RGBColorStats)
    (hr : S.r_sd ≠ 0) (hg : S.g_sd ≠ 0) (hb : S.b_sd ≠ 0) (x y : ℤ) :
    (apply_region_rgb_color_stats img reg S S).pix x y =
      if inRegionP reg x y ∧ inBoundsP img x y then
        assemblePixel (getR (img.pix x y)) (getG (img.pix x y)) (getB (img.pix x y))
      else img.pix x y := by
  simp only [apply_region_rgb_color_stats]
  split_ifs with h
  · rw [shifted_channel_id _ (getR_le _) _ hr, shifted_channel_id _ (getG_le _) _ hg,
      shifted_channel_id _ (getB_le _) _ hb]
  · rfl

/-- C8 witness: the amended identity at a concrete pixel with nondegenerate
statistics. -/
theorem c8_amended_identity_witness :
    statsSpread.r_sd ≠ 0 ∧
    (apply_region_rgb_color_stats img1x1 regionUnit statsSpread statsSpread).pix 0 0 =
      if inRegionP regionUnit 0 0 ∧ inBoundsP img1x1 0 0 then
        assemblePixel (getR (img1x1.pix 0 0)) (getG (img1x1.pix 0 0)) (getB (img1x1.pix 0 0))
      else img1x1.pix 0 0 := by
  have hr : statsSpread.r_sd ≠ 0 := by
    simp only [statsSpread]
    norm_num
  have hg : statsSpread.g_sd ≠ 0 := by
    simp only [statsSpread]
    norm_num
  have hb : statsSpread.b_sd ≠ 0 := by
    simp only [statsSpread]
    norm_num
  exact ⟨hr, c8_amended_identity img1x1 regionUnit statsSpread hr hg hb 0 0⟩

/-- C9: every pixel the two functions write is assembled as
`(new_r << 16) | (new_g << 8) | new_b` from clamped bytes, so whenever the
write condition of `apply_region_rgb_color_stats` (guarded region pixel) or
of the normalize pass of `apply_region_lighting_transfer` (guarded region
pixel with positive accumulated weight) holds, the resulting pixel value is
strictly below `2 ^ 24` — its alpha byte is zero even when the original
pixel word had a nonzero alpha byte. -/
theorem c9_written_pixels_have_zero_alpha (img t r : QImageM) (reg : Region)
    (cs scs : RGBColorStats) (x y : ℤ) :
    (inRegionP reg x y ∧ inBoundsP img x y →
      (apply_region_rgb_color_stats img reg cs scs).pix x y < 2 ^ 24) ∧
    (inRegionP reg x y ∧ inBoundsP t x y ∧ 0 < weightAcc reg x y →
      (apply_region_lighting_transfer t r reg).pix x y < 2 ^ 24) := by
  constructor
  · intro h
    simp only [apply_region_rgb_color_stats]
    rw [if_pos h]
    exact assemblePixel_lt _ _ _ (shifted_channel_le _ _ _ _ _)
      (shifted_channel_le _ _ _ _ _) (shifted_channel_le _ _ _ _ _)
  · intro h
    simp only [apply_region_lighting_transfer]
    rw [if_pos h]
    exact assemblePixel_lt _ _ _ (clampByte_le _) (clampByte_le _) (clampByte_le _)

/-- C9 witness: a written color-shift pixel and a written (positive-weight)
transfer pixel, both below `2 ^ 24`. -/
theorem c9_written_pixels_have_zero_alpha_witness :
    (apply_region_rgb_color_stats img1x1 regionUnit statsTen statsTen).pix 0 0 < 2 ^ 24 ∧
    (apply_region_lighting_transfer imgGray2 imgBlack2 regionUnit).pix 1 1 < 2 ^ 24 :=
  ⟨(c9_written_pixels_have_zero_alpha img1x1 imgGray2 imgBlack2 regionUnit statsTen statsTen
      0 0).1 ⟨by decide, by decide⟩,
    (c9_written_pixels_have_zero_alpha img1x1 imgGray2 imgBlack2 regionUnit statsTen statsTen
      1 1).2 ⟨by decide, by decide, by rw [weightAcc_unit_11]; norm_num⟩⟩

/-- C10: for a single-column or single-row region (`x1 = x2` or `y1 = y2`)
the tile loops `range(x1, x2, OVERLAP)` and `range(y1, y2, OVERLAP)` place no
tile, every accumulated weight stays `0`, and the returned buffer is pixel
for pixel identical to the input target buffer. -/
theorem c10_degenerate_axis_identity (t r : QImageM) (reg : Region)
    (h : reg.x1 = reg.x2 ∨ reg.y1 = reg.y2) :
    tileStarts reg = [] ∧ ∀ x y, weightAcc reg x y = 0 ∧
      (apply_region_lighting_transfer t r reg).pix x y = t.pix x y := by
  have ht := tileStarts_nil h
  refine ⟨ht, fun x y => ?_⟩
  have hw := weightAcc_of_nil ht x y
  exact ⟨hw, transfer_pix_of_weight_zero t r reg x y hw⟩

/-- C10 witness: a single-column region on the concrete 2×2 images leaves the
pixel unchanged. -/
theorem c10_degenerate_axis_identity_witness :
    (apply_region_lighting_transfer imgGray2 imgBlack2 ⟨0, 0, 0, 3⟩).pix 0 0 =
      imgGray2.pix 0 0 :=
  ((c10_degenerate_axis_identity imgGray2 imgBlack2 ⟨0, 0, 0, 3⟩ (Or.inl rfl)).2 0 0).2
